import Mathlib

/-!
Verification of the Kanizsa MCP server's shared security and monitoring
layer (`src/shared-security.ts`, `src/shared-monitoring.ts`) against its
natural-language specification.

JavaScript strings that cross the byte-oriented APIs (`Buffer.from`,
`crypto.createHmac`) are modelled as their UTF-8 byte sequences, i.e. as
`List Nat` with every element `< 256`.  Pure in-memory strings (cache keys,
metric names, span ids) are modelled as Lean `String`.
-/

namespace Kanizsa

/-! ## Base64 / base64url (models Node's `Buffer.toString('base64')`,
`Buffer.from(str, 'base64')` and the `replace` chains of
`JWTManager.base64UrlEncode` / `base64UrlDecode`). -/

/-- The base64 alphabet: value `n < 64` to its ASCII code. -/
def b64Char (n : Nat) : Nat :=
  if n < 26 then 65 + n
  else if n < 52 then 97 + (n - 26)
  else if n < 62 then 48 + (n - 52)
  else if n = 62 then 43
  else 47

/-- Inverse of `b64Char` on the alphabet; other codes are mapped to 0
(Node's base64 decoder is lenient). -/
def b64Val (c : Nat) : Nat :=
  if 65 ≤ c ∧ c ≤ 90 then c - 65
  else if 97 ≤ c ∧ c ≤ 122 then c - 71
  else if 48 ≤ c ∧ c ≤ 57 then c + 4
  else if c = 43 then 62
  else if c = 47 then 63
  else 0

/-- Base64 encoding of a byte sequence, with `=` (61) padding, as produced
by `Buffer.toString('base64')` and `hmac.digest('base64')`. -/
def b64enc : List Nat → List Nat
  | [] => []
  | [b1] => [b64Char (b1 / 4), b64Char (b1 % 4 * 16), 61, 61]
  | [b1, b2] => [b64Char (b1 / 4), b64Char (b1 % 4 * 16 + b2 / 16), b64Char (b2 % 16 * 4), 61]
  | b1 :: b2 :: b3 :: rest =>
    b64Char (b1 / 4) :: b64Char (b1 % 4 * 16 + b2 / 16) ::
    b64Char (b2 % 16 * 4 + b3 / 64) :: b64Char (b3 % 64) :: b64enc rest

/-- Base64 decoding of a padded base64 byte sequence (model of
`Buffer.from(str, 'base64')` on well-formed input; trailing groups of
fewer than four characters are dropped). -/
def b64dec : List Nat → List Nat
  | c1 :: c2 :: c3 :: c4 :: rest =>
    if c3 = 61 then [b64Val c1 * 4 + b64Val c2 / 16]
    else if c4 = 61 then
      [b64Val c1 * 4 + b64Val c2 / 16, b64Val c2 % 16 * 16 + b64Val c3 / 4]
    else
      (b64Val c1 * 4 + b64Val c2 / 16) :: (b64Val c2 % 16 * 16 + b64Val c3 / 4) ::
      (b64Val c3 % 4 * 64 + b64Val c4) :: b64dec rest
  | _ => []

/-- The character rewrite of `base64UrlEncode`: `+` ↦ `-`, `/` ↦ `_`. -/
def urlMap (c : Nat) : Nat := if c = 43 then 45 else if c = 47 then 95 else c

/-- The character rewrite of `base64UrlDecode`: `-` ↦ `+`, `_` ↦ `/`. -/
def unUrlMap (c : Nat) : Nat := if c = 45 then 43 else if c = 95 then 47 else c

/-- `JWTManager.base64UrlEncode`: base64, then `+`/`/` rewritten and `=`
stripped. -/
def base64UrlEncode (s : List Nat) : List Nat :=
  ((b64enc s).map urlMap).filter (fun c => c ≠ 61)

/-- `JWTManager.base64UrlDecode`: `-`/`_` rewritten back, `=` padding
restored up to a multiple of four, then base64-decoded. -/
def base64UrlDecode (s : List Nat) : List Nat :=
  let t := s.map unUrlMap
  b64dec (t ++ List.replicate ((4 - t.length % 4) % 4) 61)

theorem b64Val_b64Char : ∀ n < 64, b64Val (b64Char n) = n := by decide

theorem b64Char_ne_61 (n : Nat) : b64Char n ≠ 61 := by
  unfold b64Char
  split <;> try split <;> try split <;> try split
  all_goals omega

theorem b64Char_ne_46 (n : Nat) : b64Char n ≠ 46 := by
  unfold b64Char
  split <;> try split <;> try split <;> try split
  all_goals omega

theorem unUrlMap_urlMap_b64Char (n : Nat) (h : n < 64) :
    unUrlMap (urlMap (b64Char n)) = b64Char n := by
  revert n h; decide

theorem urlMap_b64Char_ne_61 (n : Nat) (h : n < 64) : urlMap (b64Char n) ≠ 61 := by
  revert n h; decide

theorem urlMap_b64Char_ne_46 (n : Nat) (h : n < 64) : urlMap (b64Char n) ≠ 46 := by
  revert n h; decide

/-- Every byte of a base64 encoding is either padding or an alphabet
character with a value below 64 (the value is below 64 whenever the
encoded byte is below 256, which holds for genuine bytes). -/
theorem mem_b64enc (s : List Nat) (hs : ∀ b ∈ s, b < 256) :
    ∀ c ∈ b64enc s, c = 61 ∨ ∃ n, n < 64 ∧ c = b64Char n := by
  induction s using b64enc.induct with
  | case1 => intro c hc; simp [b64enc] at hc
  | case2 b1 =>
    intro c hc
    have h1 : b1 < 256 := hs b1 (by simp)
    simp only [b64enc, List.mem_cons, List.not_mem_nil, or_false] at hc
    rcases hc with h | h | h | h <;> subst h
    · right; exact ⟨b1 / 4, by omega, rfl⟩
    · right; exact ⟨b1 % 4 * 16, by omega, rfl⟩
    · left; rfl
    · left; rfl
  | case3 b1 b2 =>
    intro c hc
    have h1 : b1 < 256 := hs b1 (by simp)
    have h2 : b2 < 256 := hs b2 (by simp)
    simp only [b64enc, List.mem_cons, List.not_mem_nil, or_false] at hc
    rcases hc with h | h | h | h <;> subst h
    · right; exact ⟨b1 / 4, by omega, rfl⟩
    · right; exact ⟨b1 % 4 * 16 + b2 / 16, by omega, rfl⟩
    · right; exact ⟨b2 % 16 * 4, by omega, rfl⟩
    · left; rfl
  | case4 b1 b2 b3 rest ih =>
    intro c hc
    have h1 : b1 < 256 := hs b1 (by simp)
    have h2 : b2 < 256 := hs b2 (by simp)
    have h3 : b3 < 256 := hs b3 (by simp)
    simp only [b64enc, List.mem_cons] at hc
    rcases hc with h | h | h | h | h
    · right; exact ⟨b1 / 4, by omega, h⟩
    · right; exact ⟨b1 % 4 * 16 + b2 / 16, by omega, h⟩
    · right; exact ⟨b2 % 16 * 4 + b3 / 64, by omega, h⟩
    · right; exact ⟨b3 % 64, by omega, h⟩
    · exact ih (fun b hb => hs b (by simp [hb])) c h

/-- No byte of a base64url encoding is a dot (46): the three parts of a
token therefore split back apart cleanly. -/
theorem mem_base64UrlEncode_ne_46 (s : List Nat) (hs : ∀ b ∈ s, b < 256) :
    ∀ c ∈ base64UrlEncode s, c ≠ 46 := by
  intro c hc
  simp only [base64UrlEncode, List.mem_filter, List.mem_map, decide_eq_true_eq] at hc
  obtain ⟨⟨c0, hc0, hmap⟩, hne⟩ := hc
  rcases mem_b64enc s hs c0 hc0 with h61 | ⟨n, hn, hcn⟩
  · subst h61; simp [urlMap] at hmap; omega
  · subst hcn; subst hmap; exact urlMap_b64Char_ne_46 n hn

/-- The url-rewrite-and-strip-padding pass of `base64UrlEncode`, as one
function (definitionally equal to the `map`/`filter` in
`base64UrlEncode`). -/
def urlStrip (l : List Nat) : List Nat := (l.map urlMap).filter (fun c => c ≠ 61)

theorem base64UrlEncode_eq_urlStrip (s : List Nat) :
    base64UrlEncode s = urlStrip (b64enc s) := rfl

theorem urlStrip_nil : urlStrip [] = [] := rfl

theorem urlStrip_cons_ne (c : Nat) (t : List Nat) (h : urlMap c ≠ 61) :
    urlStrip (c :: t) = urlMap c :: urlStrip t := by
  simp [urlStrip, List.filter_cons, h]

theorem urlStrip_cons_61 (t : List Nat) : urlStrip (61 :: t) = urlStrip t := by
  simp [urlStrip, List.filter_cons, urlMap]

theorem b64dec_pad2 (c1 c2 c4 : Nat) (t : List Nat) :
    b64dec (c1 :: c2 :: 61 :: c4 :: t) = [b64Val c1 * 4 + b64Val c2 / 16] := by
  simp [b64dec]

theorem b64dec_pad1 (c1 c2 c3 : Nat) (t : List Nat) (h3 : c3 ≠ 61) :
    b64dec (c1 :: c2 :: c3 :: 61 :: t)
      = [b64Val c1 * 4 + b64Val c2 / 16, b64Val c2 % 16 * 16 + b64Val c3 / 4] := by
  simp [b64dec, h3]

theorem b64dec_full (c1 c2 c3 c4 : Nat) (t : List Nat) (h3 : c3 ≠ 61) (h4 : c4 ≠ 61) :
    b64dec (c1 :: c2 :: c3 :: c4 :: t)
      = (b64Val c1 * 4 + b64Val c2 / 16) :: (b64Val c2 % 16 * 16 + b64Val c3 / 4) ::
        (b64Val c3 % 4 * 64 + b64Val c4) :: b64dec t := by
  simp [b64dec, h3, h4]

/-- Round trip of the base64url coder pair on genuine byte sequences:
`base64UrlDecode (base64UrlEncode s) = s`. -/
theorem base64Url_roundtrip (s : List Nat) (hs : ∀ b ∈ s, b < 256) :
    base64UrlDecode (base64UrlEncode s) = s := by
  induction s using b64enc.induct with
  | case1 => decide
  | case2 b1 =>
    have h1 : b1 < 256 := hs b1 (by simp)
    have e1 : b1 / 4 < 64 := by omega
    have e2 : b1 % 4 * 16 < 64 := by omega
    rw [base64UrlEncode_eq_urlStrip, show b64enc [b1]
        = [b64Char (b1 / 4), b64Char (b1 % 4 * 16), 61, 61] from rfl,
      urlStrip_cons_ne _ _ (urlMap_b64Char_ne_61 _ e1),
      urlStrip_cons_ne _ _ (urlMap_b64Char_ne_61 _ e2),
      urlStrip_cons_61, urlStrip_cons_61, urlStrip_nil]
    simp only [base64UrlDecode, List.map_cons, List.map_nil,
      unUrlMap_urlMap_b64Char _ e1, unUrlMap_urlMap_b64Char _ e2]
    norm_num [List.replicate]
    rw [b64dec_pad2, b64Val_b64Char _ e1, b64Val_b64Char _ e2]
    have r1 : b1 % 4 * 16 / 16 = b1 % 4 := Nat.mul_div_cancel _ (by norm_num)
    rw [r1]
    congr 1
    omega
  | case3 b1 b2 =>
    have h1 : b1 < 256 := hs b1 (by simp)
    have h2 : b2 < 256 := hs b2 (by simp)
    have e1 : b1 / 4 < 64 := by omega
    have e2 : b1 % 4 * 16 + b2 / 16 < 64 := by omega
    have e3 : b2 % 16 * 4 < 64 := by omega
    rw [base64UrlEncode_eq_urlStrip, show b64enc [b1, b2]
        = [b64Char (b1 / 4), b64Char (b1 % 4 * 16 + b2 / 16), b64Char (b2 % 16 * 4), 61] from rfl,
      urlStrip_cons_ne _ _ (urlMap_b64Char_ne_61 _ e1),
      urlStrip_cons_ne _ _ (urlMap_b64Char_ne_61 _ e2),
      urlStrip_cons_ne _ _ (urlMap_b64Char_ne_61 _ e3),
      urlStrip_cons_61, urlStrip_nil]
    simp only [base64UrlDecode, List.map_cons, List.map_nil,
      unUrlMap_urlMap_b64Char _ e1, unUrlMap_urlMap_b64Char _ e2, unUrlMap_urlMap_b64Char _ e3]
    norm_num [List.replicate]
    rw [b64dec_pad1 _ _ _ _ (b64Char_ne_61 (b2 % 16 * 4)),
      b64Val_b64Char _ e1, b64Val_b64Char _ e2, b64Val_b64Char _ e3]
    congr 1
    · omega
    congr 1
    omega
  | case4 b1 b2 b3 rest ih =>
    have h1 : b1 < 256 := hs b1 (by simp)
    have h2 : b2 < 256 := hs b2 (by simp)
    have h3 : b3 < 256 := hs b3 (by simp)
    have e1 : b1 / 4 < 64 := by omega
    have e2 : b1 % 4 * 16 + b2 / 16 < 64 := by omega
    have e3 : b2 % 16 * 4 + b3 / 64 < 64 := by omega
    have e4 : b3 % 64 < 64 := by omega
    have hrest : ∀ b ∈ rest, b < 256 := fun b hb => hs b (by simp [hb])
    have ihr := ih hrest
    rw [base64UrlEncode_eq_urlStrip] at ihr ⊢
    rw [show b64enc (b1 :: b2 :: b3 :: rest)
        = b64Char (b1 / 4) :: b64Char (b1 % 4 * 16 + b2 / 16) ::
          b64Char (b2 % 16 * 4 + b3 / 64) :: b64Char (b3 % 64) :: b64enc rest from rfl,
      urlStrip_cons_ne _ _ (urlMap_b64Char_ne_61 _ e1),
      urlStrip_cons_ne _ _ (urlMap_b64Char_ne_61 _ e2),
      urlStrip_cons_ne _ _ (urlMap_b64Char_ne_61 _ e3),
      urlStrip_cons_ne _ _ (urlMap_b64Char_ne_61 _ e4)]
    simp only [base64UrlDecode, List.map_cons,
      unUrlMap_urlMap_b64Char _ e1, unUrlMap_urlMap_b64Char _ e2,
      unUrlMap_urlMap_b64Char _ e3, unUrlMap_urlMap_b64Char _ e4] at ihr ⊢
    rw [List.length_cons, List.length_cons, List.length_cons, List.length_cons]
    rw [show ∀ L : Nat, (4 - (L + 1 + 1 + 1 + 1) % 4) % 4 = (4 - L % 4) % 4 from
      fun L => by omega]
    rw [List.cons_append, List.cons_append, List.cons_append, List.cons_append]
    rw [b64dec_full _ _ _ _ _ (b64Char_ne_61 (b2 % 16 * 4 + b3 / 64)) (b64Char_ne_61 (b3 % 64))]
    rw [b64Val_b64Char _ e1, b64Val_b64Char _ e2, b64Val_b64Char _ e3, b64Val_b64Char _ e4,
      ihr]
    congr 1
    · omega
    congr 1
    · omega
    congr 1
    · omega

/-! ## JSON layer (models `JSON.stringify` on the `JWTPayload` object and
`JSON.parse` followed by the unchecked `as JWTPayload` cast, restricted to
the canonical serialization that `generateToken` produces; any other input
is mapped to a parse failure, which `verifyToken` turns into `null`). -/

/-- Lowercase hex digit, as emitted by `JSON.stringify` in `\u00XX`
escapes. -/
def hexChar (n : Nat) : Nat := if n < 10 then 48 + n else 87 + n

/-- Hex digit value (both cases accepted, like `JSON.parse`). -/
def hexVal (c : Nat) : Nat :=
  if 48 ≤ c ∧ c ≤ 57 then c - 48
  else if 97 ≤ c ∧ c ≤ 102 then c - 87
  else if 65 ≤ c ∧ c ≤ 70 then c - 55
  else 0

def isHexByte (c : Nat) : Bool :=
  decide ((48 ≤ c ∧ c ≤ 57) ∨ (97 ≤ c ∧ c ≤ 102) ∨ (65 ≤ c ∧ c ≤ 70))

/-- `JSON.stringify` string escaping of one byte: `"` and `\` get a
backslash, the named control escapes are used where they exist, the other
control bytes become `\u00XX`, and everything else (including UTF-8
continuation bytes) passes through. -/
def escByte (b : Nat) : List Nat :=
  if b = 34 then [92, 34]
  else if b = 92 then [92, 92]
  else if b = 8 then [92, 98]
  else if b = 9 then [92, 116]
  else if b = 10 then [92, 110]
  else if b = 12 then [92, 102]
  else if b = 13 then [92, 114]
  else if b < 32 then [92, 117, 48, 48, hexChar (b / 16), hexChar (b % 16)]
  else [b]

def escBytes : List Nat → List Nat
  | [] => []
  | b :: r => escByte b ++ escBytes r

/-- Prepend a decoded byte to the string part of a parse result. -/
def consFst (b : Nat) : Option (List Nat × List Nat) → Option (List Nat × List Nat)
  | some (s, r) => some (b :: s, r)
  | none => none

/-- One step of the JSON string-body parser, with the recursive
continuation abstracted out. -/
def parseJStrStep (rec : List Nat → Option (List Nat × List Nat)) :
    List Nat → Option (List Nat × List Nat)
  | [] => none
  | c :: rest =>
    if c = 34 then some ([], rest)
    else if c = 92 then
      match rest with
      | [] => none
      | e :: r =>
        if e = 34 then consFst 34 (rec r)
        else if e = 92 then consFst 92 (rec r)
        else if e = 98 then consFst 8 (rec r)
        else if e = 116 then consFst 9 (rec r)
        else if e = 110 then consFst 10 (rec r)
        else if e = 102 then consFst 12 (rec r)
        else if e = 114 then consFst 13 (rec r)
        else if e = 117 then
          match r with
          | d1 :: d2 :: d3 :: d4 :: r2 =>
            if isHexByte d1 ∧ isHexByte d2 ∧ isHexByte d3 ∧ isHexByte d4 then
              consFst (hexVal d1 * 4096 + hexVal d2 * 256 + hexVal d3 * 16 + hexVal d4) (rec r2)
            else none
          | _ => none
        else none
    else consFst c (rec rest)

/-- Fuelled JSON string-body parser; each step consumes at least one input
byte, so input length is always enough fuel. -/
def parseJStrGo : Nat → List Nat → Option (List Nat × List Nat)
  | 0, _ => none
  | f + 1, s => parseJStrStep (parseJStrGo f) s

/-- JSON string-body parser: consumes bytes up to and including the
closing quote, undoing `escByte`; returns the decoded bytes and the rest
of the input. -/
def parseJStr (s : List Nat) : Option (List Nat × List Nat) := parseJStrGo s.length s

theorem hexVal_hexChar : ∀ n < 16, hexVal (hexChar n) = n := by decide

theorem isHexByte_hexChar : ∀ n < 16, isHexByte (hexChar n) = true := by decide

/-- `parseJStrGo` inverts `escByte`-escaping (given enough fuel): reading
the escaped body followed by the closing quote recovers the original
bytes. -/
theorem parseJStrGo_escBytes (s : List Nat) (hs : ∀ b ∈ s, b < 256) :
    ∀ f, s.length + 1 ≤ f → ∀ rest : List Nat,
      parseJStrGo f (escBytes s ++ 34 :: rest) = some (s, rest) := by
  induction s with
  | nil =>
    intro f hf rest
    obtain ⟨g, rfl⟩ : ∃ g, f = g + 1 := ⟨f - 1, by omega⟩
    simp [escBytes, parseJStrGo, parseJStrStep]
  | cons b t ih =>
    intro f hf rest
    obtain ⟨g, rfl⟩ : ∃ g, f = g + 1 := ⟨f - 1, by omega⟩
    have hb : b < 256 := hs b (by simp)
    have iht := ih (fun x hx => hs x (by simp [hx])) g (by simp at hf ⊢; omega) rest
    by_cases h34 : b = 34
    · subst h34
      rw [show escBytes (34 :: t) ++ 34 :: rest
          = 92 :: 34 :: (escBytes t ++ 34 :: rest) from rfl]
      simp [parseJStrGo, parseJStrStep, consFst, iht]
    · by_cases h92 : b = 92
      · subst h92
        rw [show escBytes (92 :: t) ++ 34 :: rest
            = 92 :: 92 :: (escBytes t ++ 34 :: rest) from rfl]
        simp [parseJStrGo, parseJStrStep, consFst, iht]
      · by_cases h8 : b = 8
        · subst h8
          rw [show escBytes (8 :: t) ++ 34 :: rest
              = 92 :: 98 :: (escBytes t ++ 34 :: rest) from rfl]
          simp [parseJStrGo, parseJStrStep, consFst, iht]
        · by_cases h9 : b = 9
          · subst h9
            rw [show escBytes (9 :: t) ++ 34 :: rest
                = 92 :: 116 :: (escBytes t ++ 34 :: rest) from rfl]
            simp [parseJStrGo, parseJStrStep, consFst, iht]
          · by_cases h10 : b = 10
            · subst h10
              rw [show escBytes (10 :: t) ++ 34 :: rest
                  = 92 :: 110 :: (escBytes t ++ 34 :: rest) from rfl]
              simp [parseJStrGo, parseJStrStep, consFst, iht]
            · by_cases h12 : b = 12
              · subst h12
                rw [show escBytes (12 :: t) ++ 34 :: rest
                    = 92 :: 102 :: (escBytes t ++ 34 :: rest) from rfl]
                simp [parseJStrGo, parseJStrStep, consFst, iht]
              · by_cases h13 : b = 13
                · subst h13
                  rw [show escBytes (13 :: t) ++ 34 :: rest
                      = 92 :: 114 :: (escBytes t ++ 34 :: rest) from rfl]
                  simp [parseJStrGo, parseJStrStep, consFst, iht]
                · by_cases hc : b < 32
                  · have hesc : escByte b
                        = [92, 117, 48, 48, hexChar (b / 16), hexChar (b % 16)] := by
                      simp only [escByte, if_neg h34, if_neg h92, if_neg h8, if_neg h9,
                        if_neg h10, if_neg h12, if_neg h13, if_pos hc]
                    have hshape : escBytes (b :: t) ++ 34 :: rest
                        = 92 :: 117 :: 48 :: 48 :: hexChar (b / 16) :: hexChar (b % 16) ::
                          (escBytes t ++ 34 :: rest) := by
                      rw [escBytes, hesc]; rfl
                    rw [hshape]
                    have hd1 : b / 16 < 16 := by omega
                    have hd2 : b % 16 < 16 := by omega
                    simp [parseJStrGo, parseJStrStep, consFst, iht,
                      isHexByte_hexChar _ hd1, isHexByte_hexChar _ hd2,
                      hexVal_hexChar _ hd1, hexVal_hexChar _ hd2,
                      show hexVal 48 = 0 from rfl,
                      show isHexByte 48 = true from rfl]
                    omega
                  · have hesc : escByte b = [b] := by
                      simp only [escByte, if_neg h34, if_neg h92, if_neg h8, if_neg h9,
                        if_neg h10, if_neg h12, if_neg h13, if_neg hc]
                    have hshape : escBytes (b :: t) ++ 34 :: rest
                        = b :: (escBytes t ++ 34 :: rest) := by
                      rw [escBytes, hesc]; rfl
                    rw [hshape]
                    simp [parseJStrGo, parseJStrStep, consFst, iht, h34, h92]

theorem length_le_escBytes (s : List Nat) : s.length ≤ (escBytes s).length := by
  induction s with
  | nil => simp [escBytes]
  | cons b t ih2 =>
    have h1 : 1 ≤ (escByte b).length := by
      simp only [escByte]
      repeat' split
      all_goals simp
    simp only [escBytes, List.length_append, List.length_cons]
    omega

/-- `parseJStr` inverts `escByte`-escaping. -/
theorem parseJStr_escBytes (s : List Nat) (hs : ∀ b ∈ s, b < 256) (rest : List Nat) :
    parseJStr (escBytes s ++ 34 :: rest) = some (s, rest) := by
  have hlen : s.length + 1 ≤ (escBytes s ++ 34 :: rest).length := by
    have h2 := length_le_escBytes s
    simp only [List.length_append, List.length_cons]
    omega
  exact parseJStrGo_escBytes s hs _ hlen rest

/-! ### JSON numbers (non-negative integers, the only numbers the payload
carries: `iat` and `exp` are `Math.floor(Date.now() / 1000)`-derived). -/

def isDigit (c : Nat) : Bool := decide (48 ≤ c ∧ c ≤ 57)

/-- Greedily consume decimal digits, accumulating their value. -/
def parseNumGo : List Nat → Nat → Nat × List Nat
  | [], acc => (acc, [])
  | c :: rest, acc =>
    if isDigit c then parseNumGo rest (acc * 10 + (c - 48)) else (acc, c :: rest)

/-- Parse a decimal integer (at least one digit). -/
def parseNum : List Nat → Option (Nat × List Nat)
  | [] => none
  | c :: rest => if isDigit c then some (parseNumGo rest (c - 48)) else none

/-- Decimal digits of `n`, least significant first, as ASCII codes. -/
def natDigitsRev : Nat → List Nat
  | 0 => []
  | n + 1 => (48 + (n + 1) % 10) :: natDigitsRev ((n + 1) / 10)
decreasing_by exact Nat.div_lt_self (Nat.succ_pos _) (by norm_num)

/-- Decimal representation of `n` in ASCII, as `JSON.stringify` emits
numbers. -/
def numBytes (n : Nat) : List Nat := if n = 0 then [48] else (natDigitsRev n).reverse

/-- `True` iff the input does not start with a digit (so a greedy digit
run ends exactly there). -/
def headNotDigit : List Nat → Prop
  | [] => True
  | c :: _ => isDigit c = false

def digitFold (acc : Nat) (ds : List Nat) : Nat :=
  ds.foldl (fun a c => a * 10 + (c - 48)) acc

theorem mem_natDigitsRev_isDigit (n : Nat) : ∀ c ∈ natDigitsRev n, isDigit c = true := by
  induction n using natDigitsRev.induct with
  | case1 => intro c hc; simp [natDigitsRev] at hc
  | case2 n ih =>
    intro c hc
    rw [natDigitsRev] at hc
    rcases List.mem_cons.1 hc with h | h
    · subst h
      have : (n + 1) % 10 < 10 := Nat.mod_lt _ (by norm_num)
      simp [isDigit]; omega
    · exact ih c h

theorem parseNumGo_append (ds : List Nat) (hd : ∀ c ∈ ds, isDigit c = true) :
    ∀ rest : List Nat, headNotDigit rest → ∀ acc : Nat,
      parseNumGo (ds ++ rest) acc = (digitFold acc ds, rest) := by
  induction ds with
  | nil =>
    intro rest hr acc
    cases rest with
    | nil => simp [parseNumGo, digitFold]
    | cons c t =>
      simp only [headNotDigit] at hr
      simp [parseNumGo, hr, digitFold]
  | cons c t ih =>
    intro rest hr acc
    have hc : isDigit c = true := hd c (by simp)
    simp only [List.cons_append, parseNumGo, hc, if_pos, List.append_eq]
    rw [ih (fun x hx => hd x (by simp [hx])) rest hr]
    simp [digitFold]

theorem digitFold_natDigitsRev (n : Nat) : ∀ acc : Nat,
    digitFold acc (natDigitsRev n).reverse = acc * 10 ^ (natDigitsRev n).length + n := by
  induction n using natDigitsRev.induct with
  | case1 => intro acc; simp [natDigitsRev, digitFold]
  | case2 n ih =>
    intro acc
    rw [natDigitsRev]
    simp only [List.reverse_cons, digitFold, List.foldl_append, List.foldl_cons,
      List.foldl_nil, List.length_cons, List.length_reverse]
    have hfold := ih acc
    simp only [digitFold, List.length_reverse] at hfold
    rw [hfold]
    have hdm : 10 * ((n + 1) / 10) + (n + 1) % 10 = n + 1 := Nat.div_add_mod _ _
    have hsub : 48 + (n + 1) % 10 - 48 = (n + 1) % 10 := by omega
    rw [hsub, pow_succ]
    ring_nf
    omega

/-- `parseNum` inverts `numBytes` when the remainder does not continue
with a digit. -/
theorem parseNum_numBytes (n : Nat) (rest : List Nat) (hr : headNotDigit rest) :
    parseNum (numBytes n ++ rest) = some (n, rest) := by
  by_cases h0 : n = 0
  · subst h0
    cases rest with
    | nil => simp [numBytes, parseNum, parseNumGo, isDigit]
    | cons c t =>
      simp only [headNotDigit] at hr
      simp [numBytes, parseNum, parseNumGo, hr, show isDigit 48 = true from rfl]
  · rw [numBytes, if_neg h0]
    have hne : natDigitsRev n ≠ [] := by
      cases hn : natDigitsRev n with
      | nil =>
        exfalso
        obtain ⟨m, rfl⟩ : ∃ m, n = m + 1 := ⟨n - 1, by omega⟩
        rw [natDigitsRev] at hn
        simp at hn
      | cons c t => simp
    obtain ⟨c, t, hct⟩ : ∃ c t, (natDigitsRev n).reverse = c :: t := by
      cases hr2 : (natDigitsRev n).reverse with
      | nil => exact absurd (by simpa using hr2) hne
      | cons c t => exact ⟨c, t, rfl⟩
    have hds : ∀ x ∈ (natDigitsRev n).reverse, isDigit x = true := by
      intro x hx
      exact mem_natDigitsRev_isDigit n x (List.mem_reverse.1 hx)
    have hc : isDigit c = true := hds c (by rw [hct]; simp)
    have ht : ∀ x ∈ t, isDigit x = true := fun x hx => hds x (by rw [hct]; simp [hx])
    rw [hct, List.cons_append, parseNum, if_pos hc,
      parseNumGo_append t ht rest hr (c - 48)]
    have hv : digitFold (c - 48) t = n := by
      have h1 := digitFold_natDigitsRev n 0
      rw [hct] at h1
      simp only [digitFold, List.foldl_cons, Nat.zero_mul, Nat.zero_add] at h1 ⊢
      exact h1
    rw [hv]

/-! ### JSON string arrays (the `permissions` field). -/

/-- Bytes of the JSON array of strings emitted by `JSON.stringify` for a
`string[]`, starting after the opening `[` and including the closing
`]`. -/
def emitStrs : List (List Nat) → List Nat
  | [] => [93]
  | [s] => 34 :: (escBytes s ++ [34, 93])
  | s :: s2 :: rest => 34 :: (escBytes s ++ [34, 44] ++ emitStrs (s2 :: rest))

/-- One step of the string-array parser: `]` ends the array, otherwise a
quoted string followed by `,` (more elements) or `]` (done). -/
def parseStrsStep (rec : List Nat → Option (List (List Nat) × List Nat)) :
    List Nat → Option (List (List Nat) × List Nat)
  | [] => none
  | c :: rest =>
    if c = 93 then some ([], rest)
    else if c = 34 then
      match parseJStr rest with
      | some (s, r1) =>
        match r1 with
        | 44 :: r2 =>
          match rec r2 with
          | some (l, r3) => if l.isEmpty then none else some (s :: l, r3)
          | none => none
        | 93 :: r2 => some ([s], r2)
        | _ => none
      | none => none
    else none

/-- Fuelled string-array parser. -/
def parseStrsGo : Nat → List Nat → Option (List (List Nat) × List Nat)
  | 0, _ => none
  | f + 1, s => parseStrsStep (parseStrsGo f) s

/-- String-array parser with the input length as fuel (each element
consumes at least one byte). -/
def parseStrs (s : List Nat) : Option (List (List Nat) × List Nat) := parseStrsGo s.length s

theorem length_emitStrs (ps : List (List Nat)) :
    ps.length + 1 ≤ (emitStrs ps).length := by
  induction ps using emitStrs.induct with
  | case1 => simp [emitStrs]
  | case2 s => simp [emitStrs]
  | case3 s s2 rest ih =>
    simp only [emitStrs, List.length_cons, List.length_append] at ih ⊢
    omega

theorem parseStrsGo_emitStrs (ps : List (List Nat)) (hs : ∀ s ∈ ps, ∀ b ∈ s, b < 256) :
    ∀ f, ps.length + 1 ≤ f → ∀ rest : List Nat,
      parseStrsGo f (emitStrs ps ++ rest) = some (ps, rest) := by
  induction ps using emitStrs.induct with
  | case1 =>
    intro f hf rest
    obtain ⟨g, rfl⟩ : ∃ g, f = g + 1 := ⟨f - 1, by omega⟩
    simp [emitStrs, parseStrsGo, parseStrsStep]
  | case2 s =>
    intro f hf rest
    obtain ⟨g, rfl⟩ : ∃ g, f = g + 1 := ⟨f - 1, by omega⟩
    have hsb : ∀ b ∈ s, b < 256 := hs s (by simp)
    have hshape : emitStrs [s] ++ rest = 34 :: (escBytes s ++ 34 :: 93 :: rest) := by
      simp [emitStrs]
    rw [hshape]
    simp [parseStrsGo, parseStrsStep, parseJStr_escBytes s hsb (93 :: rest)]
  | case3 s s2 t ih =>
    intro f hf rest
    obtain ⟨g, rfl⟩ : ∃ g, f = g + 1 := ⟨f - 1, by omega⟩
    have hsb : ∀ b ∈ s, b < 256 := hs s (by simp)
    have hshape : emitStrs (s :: s2 :: t) ++ rest
        = 34 :: (escBytes s ++ 34 :: 44 :: (emitStrs (s2 :: t) ++ rest)) := by
      simp [emitStrs]
    rw [hshape]
    have iht := ih (fun x hx => hs x (by simp at hx ⊢; tauto)) g
      (by simp at hf ⊢; omega) rest
    simp [parseStrsGo, parseStrsStep,
      parseJStr_escBytes s hsb (44 :: (emitStrs (s2 :: t) ++ rest)), iht]

/-- `parseStrs` inverts `emitStrs`. -/
theorem parseStrs_emitStrs (ps : List (List Nat)) (hs : ∀ s ∈ ps, ∀ b ∈ s, b < 256)
    (rest : List Nat) : parseStrs (emitStrs ps ++ rest) = some (ps, rest) := by
  have h1 := length_emitStrs ps
  refine parseStrsGo_emitStrs ps hs _ ?_ rest
  simp only [List.length_append]
  omega

/-! ## The `JWTPayload` object and its canonical JSON form. -/

/-- The caller-supplied part of the payload,
`Omit<JWTPayload, 'iat' | 'exp'>`; string fields as UTF-8 bytes. -/
structure IdentityPayload where
  userId : List Nat
  email : List Nat
  role : List Nat
  permissions : List (List Nat)
deriving DecidableEq, Repr

/-- The `JWTPayload` interface of `shared-security.ts`. -/
structure JWTPayload where
  userId : List Nat
  email : List Nat
  role : List Nat
  permissions : List (List Nat)
  iat : Nat
  exp : Nat
deriving DecidableEq, Repr

/-- All string bytes of a payload are genuine bytes (automatic for data
that came from JavaScript strings through UTF-8). -/
def WfPayload (p : JWTPayload) : Prop :=
  (∀ b ∈ p.userId, b < 256) ∧ (∀ b ∈ p.email, b < 256) ∧ (∀ b ∈ p.role, b < 256) ∧
    ∀ s ∈ p.permissions, ∀ b ∈ s, b < 256

instance (p : JWTPayload) : Decidable (WfPayload p) := by
  unfold WfPayload; infer_instance

def WfIdentity (p : IdentityPayload) : Prop :=
  (∀ b ∈ p.userId, b < 256) ∧ (∀ b ∈ p.email, b < 256) ∧ (∀ b ∈ p.role, b < 256) ∧
    ∀ s ∈ p.permissions, ∀ b ∈ s, b < 256

instance (p : IdentityPayload) : Decidable (WfIdentity p) := by
  unfold WfIdentity; infer_instance

def kUserId : List Nat := [123, 34, 117, 115, 101, 114, 73, 100, 34, 58, 34]
def kEmailT : List Nat := [44, 34, 101, 109, 97, 105, 108, 34, 58, 34]
def kRoleT : List Nat := [44, 34, 114, 111, 108, 101, 34, 58, 34]
def kPermsT : List Nat := [44, 34, 112, 101, 114, 109, 105, 115, 115, 105, 111, 110, 115, 34, 58, 91]
def kIat : List Nat := [44, 34, 105, 97, 116, 34, 58]
def kExp : List Nat := [44, 34, 101, 120, 112, 34, 58]

/-- UTF-8 bytes of `JSON.stringify` applied to the `jwtPayload` object of
`generateToken` (fields in interface declaration order:
`\x7b"userId":…,"email":…,"role":…,"permissions":[…],"iat":…,"exp":…\x7d`).
The `k…` constants above are the fixed ASCII pieces of that grammar. -/
def stringifyPayload (p : JWTPayload) : List Nat :=
  kUserId ++ escBytes p.userId ++ 34 :: (kEmailT ++ escBytes p.email ++ 34 ::
    (kRoleT ++ escBytes p.role ++ 34 :: (kPermsT ++ emitStrs p.permissions ++
      kIat ++ numBytes p.iat ++ kExp ++ numBytes p.exp ++ [125])))

/-- Strip an expected literal prefix, returning the remainder. -/
def stripPfx : List Nat → List Nat → Option (List Nat)
  | [], s => some s
  | _ :: _, [] => none
  | p :: ps, c :: cs => if c = p then stripPfx ps cs else none

theorem stripPfx_append (p : List Nat) (s : List Nat) : stripPfx p (p ++ s) = some s := by
  induction p with
  | nil => simp [stripPfx]
  | cons a t ih => simp [stripPfx, ih]

/-- Model of `JSON.parse(…) as JWTPayload` in `verifyToken`, restricted to
the canonical serialization `stringifyPayload` produces; anything else
fails (in the source a failing `JSON.parse` throws, which the surrounding
`try` turns into `null`). -/
def jsonParsePayload (s : List Nat) : Option JWTPayload :=
  match stripPfx kUserId s with
  | none => none
  | some s1 =>
    match parseJStr s1 with
    | none => none
    | some (uid, s2) =>
      match stripPfx kEmailT s2 with
      | none => none
      | some s3 =>
        match parseJStr s3 with
        | none => none
        | some (em, s4) =>
          match stripPfx kRoleT s4 with
          | none => none
          | some s5 =>
            match parseJStr s5 with
            | none => none
            | some (ro, s6) =>
              match stripPfx kPermsT s6 with
              | none => none
              | some s7 =>
                match parseStrs s7 with
                | none => none
                | some (ps, s8) =>
                  match stripPfx kIat s8 with
                  | none => none
                  | some s9 =>
                    match parseNum s9 with
                    | none => none
                    | some (ia, s10) =>
                      match stripPfx kExp s10 with
                      | none => none
                      | some s11 =>
                        match parseNum s11 with
                        | none => none
                        | some (ex, s12) =>
                          if s12 = [125] then some ⟨uid, em, ro, ps, ia, ex⟩ else none

/-- `jsonParsePayload` recovers exactly the payload that
`stringifyPayload` serialized. -/
theorem jsonParsePayload_stringify (p : JWTPayload) (hp : WfPayload p) :
    jsonParsePayload (stringifyPayload p) = some p := by
  obtain ⟨h1, h2, h3, h4⟩ := hp
  set R9 : List Nat := numBytes p.exp ++ [125] with hR9
  set R8 : List Nat := kExp ++ R9 with hR8
  set R7 : List Nat := numBytes p.iat ++ R8 with hR7
  set R6 : List Nat := emitStrs p.permissions ++ (kIat ++ R7) with hR6
  set R5 : List Nat := kPermsT ++ R6 with hR5
  set R4 : List Nat := escBytes p.role ++ 34 :: R5 with hR4
  set R3 : List Nat := kRoleT ++ R4 with hR3
  set R2 : List Nat := escBytes p.email ++ 34 :: R3 with hR2
  set R1 : List Nat := kEmailT ++ R2 with hR1
  set R0 : List Nat := escBytes p.userId ++ 34 :: R1 with hR0
  have hshape : stringifyPayload p = kUserId ++ R0 := by
    rw [hR0, hR1, hR2, hR3, hR4, hR5, hR6, hR7, hR8, hR9, stringifyPayload]
    simp
  have e0 : stripPfx kUserId (stringifyPayload p) = some R0 := by
    rw [hshape]; exact stripPfx_append _ _
  have e1 : parseJStr R0 = some (p.userId, R1) := parseJStr_escBytes _ h1 _
  have e2 : stripPfx kEmailT R1 = some R2 := stripPfx_append _ _
  have e3 : parseJStr R2 = some (p.email, R3) := parseJStr_escBytes _ h2 _
  have e4 : stripPfx kRoleT R3 = some R4 := stripPfx_append _ _
  have e5 : parseJStr R4 = some (p.role, R5) := parseJStr_escBytes _ h3 _
  have e6 : stripPfx kPermsT R5 = some R6 := stripPfx_append _ _
  have e7 : parseStrs R6 = some (p.permissions, kIat ++ R7) := parseStrs_emitStrs _ h4 _
  have e8 : stripPfx kIat (kIat ++ R7) = some R7 := stripPfx_append _ _
  have e9 : parseNum R7 = some (p.iat, R8) := by
    refine parseNum_numBytes p.iat R8 ?_
    rw [hR8, show kExp ++ R9 = 44 :: ([34, 101, 120, 112, 34, 58] ++ R9) from rfl]
    simp [headNotDigit, isDigit]
  have e10 : stripPfx kExp R8 = some R9 := stripPfx_append _ _
  have e11 : parseNum R9 = some (p.exp, [125]) := by
    refine parseNum_numBytes p.exp [125] ?_
    simp [headNotDigit, isDigit]
  simp only [jsonParsePayload, e0, e1, e2, e3, e4, e5, e6, e7, e8, e9, e10, e11]
  simp

/-! ## `JWTManager` (`shared-security.ts` lines 66–159).

`crypto.createHmac('sha256', secret).update(data).digest()` is Node
library code, not part of this repository; it is modelled as an opaque
deterministic function `hmac : secret → data → digest bytes`, which is
all the token logic relies on.  `hmac.digest('base64')` is `b64enc` of
those digest bytes. -/

/-- Prepend a byte onto the first group of a split. -/
def consGroup (c : Nat) : List (List Nat) → List (List Nat)
  | [] => [[c]]
  | g :: gs => (c :: g) :: gs

/-- `token.split('.')` (for a single-byte separator; base64url data never
contains a dot). -/
def splitByte (sep : Nat) : List Nat → List (List Nat)
  | [] => [[]]
  | c :: rest =>
    if c = sep then [] :: splitByte sep rest else consGroup c (splitByte sep rest)

theorem splitByte_nosep (sep : Nat) (a : List Nat) (ha : ∀ c ∈ a, c ≠ sep) :
    splitByte sep a = [a] := by
  induction a with
  | nil => rfl
  | cons c t ih =>
    rw [splitByte, if_neg (ha c (by simp)), ih (fun x hx => ha x (by simp [hx]))]
    rfl

theorem splitByte_append (sep : Nat) (a : List Nat) (ha : ∀ c ∈ a, c ≠ sep)
    (r : List Nat) : splitByte sep (a ++ sep :: r) = a :: splitByte sep r := by
  induction a with
  | nil => simp [splitByte]
  | cons c t ih =>
    rw [List.cons_append, splitByte, if_neg (ha c (by simp)),
      ih (fun x hx => ha x (by simp [hx]))]
    rfl

/-- `JWTManager.generateSignature`: HMAC-SHA256 digest, rendered in
base64 (`digest('base64')`), then base64url-encoded on top. -/
def generateSignature (hmac : List Nat → List Nat → List Nat)
    (secret data : List Nat) : List Nat :=
  base64UrlEncode (b64enc (hmac secret data))

/-- Bytes of `JSON.stringify({alg: 'HS256', typ: 'JWT'})`. -/
def headerBytes : List Nat :=
  [123, 34, 97, 108, 103, 34, 58, 34, 72, 83, 50, 53, 54, 34, 44, 34, 116, 121,
   112, 34, 58, 34, 74, 87, 84, 34, 125]

/-- `JWTManager.generateToken`; `now` is `Math.floor(Date.now() / 1000)`
and `expiry` the configured TTL. -/
def generateToken (hmac : List Nat → List Nat → List Nat) (secret : List Nat)
    (expiry now : Nat) (p : IdentityPayload) : List Nat :=
  let jwtPayload : JWTPayload :=
    ⟨p.userId, p.email, p.role, p.permissions, now, now + expiry⟩
  let encodedHeader := base64UrlEncode headerBytes
  let encodedPayload := base64UrlEncode (stringifyPayload jwtPayload)
  let signature := generateSignature hmac secret (encodedHeader ++ 46 :: encodedPayload)
  encodedHeader ++ 46 :: (encodedPayload ++ 46 :: signature)

/-- `JWTManager.verifyToken`; `now` is the verification-time clock.  Every
`return null` path of the source (wrong part count, signature mismatch,
failed `JSON.parse`, expiry, and the surrounding `catch`) is `none`. -/
def verifyToken (hmac : List Nat → List Nat → List Nat) (secret : List Nat)
    (now : Nat) (token : List Nat) : Option JWTPayload :=
  match splitByte 46 token with
  | [header, payload, signature] =>
    let expectedSignature := generateSignature hmac secret (header ++ 46 :: payload)
    if signature ≠ expectedSignature then none
    else
      match jsonParsePayload (base64UrlDecode payload) with
      | none => none
      | some decodedPayload =>
        if decodedPayload.exp < now then none else some decodedPayload
  | _ => none

/-! Byte-range facts needed to split a generated token back apart. -/

set_option maxRecDepth 4000 in
theorem mem_escByte_lt : ∀ b < 256, ∀ c ∈ escByte b, c < 256 := by decide

theorem mem_escBytes_lt (s : List Nat) (hs : ∀ b ∈ s, b < 256) :
    ∀ c ∈ escBytes s, c < 256 := by
  induction s with
  | nil => intro c hc; simp [escBytes] at hc
  | cons b t ih =>
    intro c hc
    rw [escBytes] at hc
    rcases List.mem_append.1 hc with h | h
    · exact mem_escByte_lt b (hs b (by simp)) c h
    · exact ih (fun x hx => hs x (by simp [hx])) c h

theorem mem_emitStrs_lt (ps : List (List Nat)) (hps : ∀ s ∈ ps, ∀ b ∈ s, b < 256) :
    ∀ c ∈ emitStrs ps, c < 256 := by
  induction ps using emitStrs.induct with
  | case1 => intro c hc; simp [emitStrs] at hc; omega
  | case2 s =>
    intro c hc
    simp only [emitStrs, List.mem_cons, List.mem_append] at hc
    rcases hc with h | h | h
    · omega
    · exact mem_escBytes_lt s (hps s (by simp)) c h
    · simp at h; rcases h with h | h <;> omega
  | case3 s s2 t ih =>
    intro c hc
    simp only [emitStrs, List.mem_cons, List.mem_append] at hc
    rcases hc with h | (h | h) | h
    · omega
    · exact mem_escBytes_lt s (hps s (by simp)) c h
    · simp at h; rcases h with h | h <;> omega
    · exact ih (fun x hx => hps x (by simp at hx ⊢; tauto)) c h

theorem mem_numBytes_lt (n : Nat) : ∀ c ∈ numBytes n, c < 256 := by
  intro c hc
  unfold numBytes at hc
  split at hc
  · simp at hc; omega
  · have := mem_natDigitsRev_isDigit n c (List.mem_reverse.1 hc)
    simp [isDigit] at this
    omega

theorem mem_stringify_lt (p : JWTPayload) (hp : WfPayload p) :
    ∀ c ∈ stringifyPayload p, c < 256 := by
  obtain ⟨h1, h2, h3, h4⟩ := hp
  simp only [stringifyPayload, List.forall_mem_append, List.forall_mem_cons]
  repeat' apply And.intro
  all_goals first
    | decide
    | omega
    | exact mem_escBytes_lt _ h1
    | exact mem_escBytes_lt _ h2
    | exact mem_escBytes_lt _ h3
    | exact mem_emitStrs_lt _ h4
    | exact mem_numBytes_lt _

theorem b64Char_lt (n : Nat) : b64Char n < 256 := by
  unfold b64Char
  split <;> try split <;> try split <;> try split
  all_goals omega

theorem mem_b64enc_lt (s : List Nat) : ∀ c ∈ b64enc s, c < 256 := by
  induction s using b64enc.induct with
  | case1 => intro c hc; simp [b64enc] at hc
  | case2 b1 =>
    intro c hc
    simp only [b64enc, List.mem_cons, List.not_mem_nil, or_false] at hc
    rcases hc with h | h | h | h <;> subst h
    all_goals first | exact b64Char_lt _ | omega
  | case3 b1 b2 =>
    intro c hc
    simp only [b64enc, List.mem_cons, List.not_mem_nil, or_false] at hc
    rcases hc with h | h | h | h <;> subst h
    all_goals first | exact b64Char_lt _ | omega
  | case4 b1 b2 b3 rest ih =>
    intro c hc
    simp only [b64enc, List.mem_cons] at hc
    rcases hc with h | h | h | h | h
    · subst h; exact b64Char_lt _
    · subst h; exact b64Char_lt _
    · subst h; exact b64Char_lt _
    · subst h; exact b64Char_lt _
    · exact ih c h

theorem mem_generateSignature_ne_46 (hmac : List Nat → List Nat → List Nat)
    (secret data : List Nat) : ∀ c ∈ generateSignature hmac secret data, c ≠ 46 :=
  mem_base64UrlEncode_ne_46 _ (mem_b64enc_lt _)

/-- A generated token splits on dots into exactly its three parts. -/
theorem splitToken (hmac : List Nat → List Nat → List Nat) (secret : List Nat)
    (expiry now : Nat) (p : IdentityPayload) (hp : WfIdentity p) :
    splitByte 46 (generateToken hmac secret expiry now p)
      = [base64UrlEncode headerBytes,
         base64UrlEncode (stringifyPayload
           ⟨p.userId, p.email, p.role, p.permissions, now, now + expiry⟩),
         generateSignature hmac secret
           (base64UrlEncode headerBytes ++ 46 :: base64UrlEncode (stringifyPayload
             ⟨p.userId, p.email, p.role, p.permissions, now, now + expiry⟩))] := by
  obtain ⟨h1, h2, h3, h4⟩ := hp
  have hwf : WfPayload ⟨p.userId, p.email, p.role, p.permissions, now, now + expiry⟩ :=
    ⟨h1, h2, h3, h4⟩
  have hh : ∀ c ∈ base64UrlEncode headerBytes, c ≠ 46 :=
    mem_base64UrlEncode_ne_46 _ (by decide)
  have hpl : ∀ c ∈ base64UrlEncode (stringifyPayload
      ⟨p.userId, p.email, p.role, p.permissions, now, now + expiry⟩), c ≠ 46 :=
    mem_base64UrlEncode_ne_46 _ (mem_stringify_lt _ hwf)
  have hsg := mem_generateSignature_ne_46 hmac secret
    (base64UrlEncode headerBytes ++ 46 :: base64UrlEncode (stringifyPayload
      ⟨p.userId, p.email, p.role, p.permissions, now, now + expiry⟩))
  rw [show generateToken hmac secret expiry now p
      = base64UrlEncode headerBytes ++ 46 :: (base64UrlEncode (stringifyPayload
          ⟨p.userId, p.email, p.role, p.permissions, now, now + expiry⟩) ++ 46 ::
        generateSignature hmac secret (base64UrlEncode headerBytes ++ 46 ::
          base64UrlEncode (stringifyPayload
            ⟨p.userId, p.email, p.role, p.permissions, now, now + expiry⟩))) from rfl]
  rw [splitByte_append _ _ hh, splitByte_append _ _ hpl, splitByte_nosep _ _ hsg]

/-! Shared rejection lemmas for `verifyToken`. -/

theorem verify_parts_ne3 (hmac : List Nat → List Nat → List Nat) (secret : List Nat)
    (now : Nat) (token : List Nat) (h : (splitByte 46 token).length ≠ 3) :
    verifyToken hmac secret now token = none := by
  rcases hl : splitByte 46 token with _ | ⟨a, _ | ⟨b, _ | ⟨c, _ | ⟨d, t⟩⟩⟩⟩
  · simp [verifyToken, hl]
  · simp [verifyToken, hl]
  · simp [verifyToken, hl]
  · rw [hl] at h; simp at h
  · simp [verifyToken, hl]

theorem verify_badsig (hmac : List Nat → List Nat → List Nat) (secret : List Nat)
    (now : Nat) (token eh ep sg : List Nat) (hsp : splitByte 46 token = [eh, ep, sg])
    (hne : sg ≠ generateSignature hmac secret (eh ++ 46 :: ep)) :
    verifyToken hmac secret now token = none := by
  simp only [verifyToken, hsp]
  rw [if_pos hne]

theorem verify_badjson (hmac : List Nat → List Nat → List Nat) (secret : List Nat)
    (now : Nat) (token eh ep sg : List Nat) (hsp : splitByte 46 token = [eh, ep, sg])
    (hj : jsonParsePayload (base64UrlDecode ep) = none) :
    verifyToken hmac secret now token = none := by
  by_cases hne : sg = generateSignature hmac secret (eh ++ 46 :: ep)
  · simp only [verifyToken, hsp]
    rw [if_neg (by simp [hne]), hj]
  · exact verify_badsig hmac secret now token eh ep sg hsp hne

theorem verify_expired (hmac : List Nat → List Nat → List Nat) (secret : List Nat)
    (now : Nat) (token eh ep sg : List Nat) (q : JWTPayload)
    (hsp : splitByte 46 token = [eh, ep, sg])
    (hj : jsonParsePayload (base64UrlDecode ep) = some q) (he : q.exp < now) :
    verifyToken hmac secret now token = none := by
  by_cases hne : sg = generateSignature hmac secret (eh ++ 46 :: ep)
  · simp only [verifyToken, hsp]
    rw [if_neg (by simp [hne]), hj]
    simp [he]
  · exact verify_badsig hmac secret now token eh ep sg hsp hne

/-! Concrete sample inputs used by witnesses and counterexamples.  The
HMAC instance is an arbitrary deterministic function (the token logic
depends only on determinism). -/

def hmacSample (secret data : List Nat) : List Nat := secret ++ data

def idSample : IdentityPayload :=
  ⟨[117, 49], [101, 64, 120], [97, 100, 109], [[112, 49], [112, 50]]⟩

/-- C1.  Token round-trip: for every identity payload and every secret,
`verifyToken` on the string produced by `generateToken`, at a
verification time before the token's `exp`, returns a payload whose
identity fields equal the issued ones. -/
theorem token_roundtrip (hmac : List Nat → List Nat → List Nat) (secret : List Nat)
    (expiry now tv : Nat) (p : IdentityPayload) (hp : WfIdentity p)
    (ht : tv < now + expiry) :
    ∃ q, verifyToken hmac secret tv (generateToken hmac secret expiry now p) = some q
      ∧ q.userId = p.userId ∧ q.email = p.email ∧ q.role = p.role
      ∧ q.permissions = p.permissions := by
  obtain ⟨h1, h2, h3, h4⟩ := hp
  have hwf : WfPayload ⟨p.userId, p.email, p.role, p.permissions, now, now + expiry⟩ :=
    ⟨h1, h2, h3, h4⟩
  refine ⟨⟨p.userId, p.email, p.role, p.permissions, now, now + expiry⟩, ?_, rfl, rfl, rfl, rfl⟩
  have hsplit := splitToken hmac secret expiry now p ⟨h1, h2, h3, h4⟩
  have hexp : ¬((⟨p.userId, p.email, p.role, p.permissions, now, now + expiry⟩ :
      JWTPayload).exp < tv) := by simp; omega
  simp only [verifyToken, hsplit, ne_eq, not_true_eq_false, if_false,
    base64Url_roundtrip _ (mem_stringify_lt _ hwf), jsonParsePayload_stringify _ hwf,
    hexp]

/-- C1 witness: the round trip at a concrete payload, secret, clock and
HMAC instance. -/
theorem token_roundtrip_witness :
    ∃ q, verifyToken hmacSample [107, 101] 2000
        (generateToken hmacSample [107, 101] 3600 1000 idSample) = some q
      ∧ q.userId = idSample.userId ∧ q.email = idSample.email ∧ q.role = idSample.role
      ∧ q.permissions = idSample.permissions :=
  token_roundtrip hmacSample [107, 101] 3600 1000 2000 idSample (by decide) (by decide)

/-- C3 counterexample: the three rejection modes are not distinct error
values.  A malformed token (one part) and a bad-signature token (three
parts, wrong signature) produce the very same observable result `null`;
the source returns `null` on every failure path. -/
theorem verify_failure_modes_collapse :
    verifyToken hmacSample [107, 101] 0 [97, 98] = none
  ∧ verifyToken hmacSample [107, 101] 0 [97, 46, 98, 46, 99] = none
  ∧ (splitByte 46 [97, 98]).length = 1
  ∧ splitByte 46 [97, 46, 98, 46, 99] = [[97], [98], [99]]
  ∧ [99] ≠ generateSignature hmacSample [107, 101] ([97] ++ 46 :: [98])
  ∧ verifyToken hmacSample [107, 101] 0 [97, 98]
      = verifyToken hmacSample [107, 101] 0 [97, 46, 98, 46, 99] := by
  decide

/-- C3 (amended).  Verification rejects all three failure modes — wrong
part count, signature mismatch, and expiry — but always with the same
value `null` (`none`); the modes are not distinguishable by the caller. -/
theorem verify_reject_modes (hmac : List Nat → List Nat → List Nat) (secret : List Nat)
    (now : Nat) (token : List Nat)
    (h : (splitByte 46 token).length ≠ 3
      ∨ (∃ eh ep sg, splitByte 46 token = [eh, ep, sg]
          ∧ sg ≠ generateSignature hmac secret (eh ++ 46 :: ep))
      ∨ (∃ eh ep sg q, splitByte 46 token = [eh, ep, sg]
          ∧ sg = generateSignature hmac secret (eh ++ 46 :: ep)
          ∧ jsonParsePayload (base64UrlDecode ep) = some q ∧ q.exp < now)) :
    verifyToken hmac secret now token = none := by
  rcases h with h | ⟨eh, ep, sg, hsp, hne⟩ | ⟨eh, ep, sg, q, hsp, hsg, hj, he⟩
  · exact verify_parts_ne3 hmac secret now token h
  · exact verify_badsig hmac secret now token eh ep sg hsp hne
  · exact verify_expired hmac secret now token eh ep sg q hsp hj he

/-- C3 witness: the amended theorem applied to a malformed (2-part)
token. -/
theorem verify_reject_modes_witness :
    verifyToken hmacSample [107, 101] 0 [97, 46, 98] = none :=
  verify_reject_modes hmacSample [107, 101] 0 [97, 46, 98] (Or.inl (by decide))

/-- C10.  Totality of `verifyToken`: on every input string it returns
either a payload or `null` — wrong part counts, payloads that do not
parse back (undecodable base64url turns into bytes `JSON.parse` rejects;
the `catch` maps the throw to `null`), and expired tokens all yield
`null`, and no exception escapes (the model is a total function). -/
theorem verifyToken_total (hmac : List Nat → List Nat → List Nat) (secret : List Nat)
    (now : Nat) (token : List Nat) :
    ((splitByte 46 token).length ≠ 3 → verifyToken hmac secret now token = none)
  ∧ (∀ eh ep sg, splitByte 46 token = [eh, ep, sg] →
      jsonParsePayload (base64UrlDecode ep) = none →
      verifyToken hmac secret now token = none)
  ∧ (∀ eh ep sg q, splitByte 46 token = [eh, ep, sg] →
      jsonParsePayload (base64UrlDecode ep) = some q → q.exp < now →
      verifyToken hmac secret now token = none)
  ∧ (verifyToken hmac secret now token = none
      ∨ ∃ q, verifyToken hmac secret now token = some q) := by
  refine ⟨fun h => verify_parts_ne3 hmac secret now token h,
    fun eh ep sg hsp hj => verify_badjson hmac secret now token eh ep sg hsp hj,
    fun eh ep sg q hsp hj he => verify_expired hmac secret now token eh ep sg q hsp hj he,
    ?_⟩
  rcases hv : verifyToken hmac secret now token with _ | q
  · exact Or.inl rfl
  · exact Or.inr ⟨q, rfl⟩

/-- C10 witness: the totality theorem applied to a garbage input. -/
theorem verifyToken_total_witness :
    verifyToken hmacSample [1] 5 [97] = none :=
  (verifyToken_total hmacSample [1] 5 [97]).1 (by decide)

/-- Cost model of the early-exit character comparison performed by the
JavaScript string inequality `signature !== expectedSignature`
(`shared-security.ts:111`): number of positions inspected before the
first mismatch ends the comparison. -/
def cmpCost : List Nat → List Nat → Nat
  | a :: as2, b :: bs => if a = b then 1 + cmpCost as2 bs else 1
  | _, _ => 0

/-- C2: the signature comparison in `verifyToken` is a plain `!==`, not a
constant-time comparison.  Two equal-length forged signatures for the same
header/payload — one wrong in its first byte, one wrong only in its last —
are both rejected, but the comparison inspects 1 position for the former
and 11 for the latter, so the number of matching leading bytes leaks
through timing, contradicting the spec's design requirement. -/
theorem signature_compare_not_constant_time :
    verifyToken hmacSample [107, 101] 0
      ([97] ++ 46 :: ([98] ++ 46 :: [90, 84, 74, 87, 97, 69, 120, 116, 83, 84, 48])) = none
  ∧ verifyToken hmacSample [107, 101] 0
      ([97] ++ 46 :: ([98] ++ 46 :: [89, 84, 74, 87, 97, 69, 120, 116, 83, 84, 49])) = none
  ∧ (90 : Nat) ≠ 89
  ∧ List.length [90, 84, 74, 87, 97, 69, 120, 116, 83, 84, 48]
      = List.length [89, 84, 74, 87, 97, 69, 120, 116, 83, 84, 49]
  ∧ cmpCost [90, 84, 74, 87, 97, 69, 120, 116, 83, 84, 48]
      (generateSignature hmacSample [107, 101] ([97] ++ 46 :: [98])) = 1
  ∧ cmpCost [89, 84, 74, 87, 97, 69, 120, 116, 83, 84, 49]
      (generateSignature hmacSample [107, 101] ([97] ++ 46 :: [98])) = 11 := by
  decide

/-! ## Rate limiting (`SharedCache.checkRateLimit`,
`RateLimitManager.checkRateLimit`).

The Redis client is modelled as an association list from keys to counter
entries with an optional absolute expiry (`INCR` creates at 1 with no
TTL, `EXPIRE` attaches one, lookups ignore entries whose expiry has
passed — Redis's lazy expiry).  The clock `now` is in seconds.  A
`cacheUp` flag stands for whether the `try` block's Redis operations
succeed; when they throw, the `catch` path runs. -/

structure RedisEntry where
  value : Nat
  expireAt : Option Int
deriving DecidableEq, Repr

def lookupA {α : Type} : List (String × α) → String → Option α
  | [], _ => none
  | (k, v) :: t, key => if k = key then some v else lookupA t key

def setA {α : Type} : List (String × α) → String → α → List (String × α)
  | [], key, v => [(key, v)]
  | (k, w) :: t, key, v => if k = key then (key, v) :: t else (k, w) :: setA t key v

theorem lookupA_setA_self {α : Type} (l : List (String × α)) (k : String) (v : α) :
    lookupA (setA l k v) k = some v := by
  induction l with
  | nil => simp [setA, lookupA]
  | cons p t ih =>
    obtain ⟨k2, w⟩ := p
    by_cases h : k2 = k
    · subst h; simp [setA, lookupA]
    · simp [setA, lookupA, h, ih]

theorem setA_setA {α : Type} (l : List (String × α)) (k : String) (v w : α) :
    setA (setA l k v) k w = setA l k w := by
  induction l with
  | nil => simp [setA]
  | cons p t ih =>
    obtain ⟨k2, u⟩ := p
    by_cases h : k2 = k
    · subst h; simp [setA]
    · simp [setA, h, ih]

/-- Redis lazy liveness: an entry with a TTL is gone once `now` reaches
its expiry. -/
def entryLive (now : Int) (e : RedisEntry) : Bool :=
  match e.expireAt with
  | none => true
  | some t => decide (now < t)

/-- `this.client.incr(key)`: create at 1 (no TTL) or increment. -/
def redisIncr (st : List (String × RedisEntry)) (now : Int) (key : String) :
    Nat × List (String × RedisEntry) :=
  match lookupA st key with
  | some e =>
    if entryLive now e then (e.value + 1, setA st key ⟨e.value + 1, e.expireAt⟩)
    else (1, setA st key ⟨1, none⟩)
  | none => (1, setA st key ⟨1, none⟩)

/-- `this.client.expire(key, ttl)`: attach an absolute expiry to a live
key; no-op on a missing/expired key. -/
def redisExpire (st : List (String × RedisEntry)) (now : Int) (key : String)
    (ttl : Nat) : List (String × RedisEntry) :=
  match lookupA st key with
  | some e => if entryLive now e then setA st key ⟨e.value, some (now + ttl)⟩ else st
  | none => st

/-- `this.client.get(key)` (the counter's value as Redis returns it). -/
def redisGet (st : List (String × RedisEntry)) (now : Int) (key : String) : Option Nat :=
  match lookupA st key with
  | some e => if entryLive now e then some e.value else none
  | none => none

/-- `this.client.ttl(key)`: remaining seconds, `-1` without TTL, `-2` if
missing. -/
def redisTtl (st : List (String × RedisEntry)) (now : Int) (key : String) : Int :=
  match lookupA st key with
  | some e =>
    if entryLive now e then
      match e.expireAt with
      | none => -1
      | some t => t - now
    else -2
  | none => -2

/-- `startsWith` on character lists. -/
def startsWithL : List Char → List Char → Bool
  | [], _ => true
  | _ :: _, [] => false
  | p :: ps, c :: cs => p = c && startsWithL ps cs

/-- First-occurrence substring replacement, as JavaScript
`String.prototype.replace` with a string pattern. -/
def replaceFirstL (pat repl : List Char) : List Char → List Char
  | [] => []
  | c :: cs =>
    if startsWithL pat (c :: cs) then repl ++ List.drop (pat.length - 1) cs
    else c :: replaceFirstL pat repl cs

def replaceFirst (s pat repl : String) : String :=
  String.mk (replaceFirstL pat.toList repl.toList s.toList)

/-- String prefix test (via character lists). -/
def strStartsWith (s pre : String) : Bool := startsWithL pre.toList s.toList

/-- `SharedCache.generateKey`: substitute each `\x7bparam\x7d` in the key
pattern. -/
def generateKey (pattern : String) (params : List (String × String)) : String :=
  params.foldl (fun key pv => replaceFirst key ("\x7b" ++ pv.1 ++ "\x7d") pv.2) pattern

/-- `CACHE_KEYS.API_RATE_LIMIT`. -/
def apiRateLimitPattern : String := "rate:limit:\x7buserId\x7d:\x7bendpoint\x7d"

/-- The `const key = this.generateKey(CACHE_KEYS.API_RATE_LIMIT,
{ userId, endpoint })` line of `SharedCache.checkRateLimit`. -/
def rlKey (userId endpoint : String) : String :=
  generateKey apiRateLimitPattern [("userId", userId), ("endpoint", endpoint)]

namespace SharedCache

/-- `SharedCache.checkRateLimit` (`shared-security.ts` 2267–2283): INCR,
EXPIRE on first hit, allow while `current <= limit`; on a thrown cache
error (`cacheUp = false`) the `catch` allows the request. -/
def checkRateLimit (st : List (String × RedisEntry)) (cacheUp : Bool) (now : Int)
    (userId endpoint : String) (limit window : Nat) :
    Bool × List (String × RedisEntry) :=
  if cacheUp then
    let key := rlKey userId endpoint
    let r := redisIncr st now key
    let st2 := if r.1 = 1 then redisExpire r.2 now key window else r.2
    (decide (r.1 ≤ limit), st2)
  else (true, st)

/-- `SharedCache.getRateLimitInfo`: `{current, limit: 100, window: ttl}`
when the key exists and has positive TTL, else `null` (also `null` on a
cache error). -/
def getRateLimitInfo (st : List (String × RedisEntry)) (cacheUp : Bool) (now : Int)
    (userId endpoint : String) : Option (Nat × Nat × Int) :=
  if cacheUp then
    let key := rlKey userId endpoint
    match redisGet st now key with
    | some v => if redisTtl st now key > 0 then some (v, 100, redisTtl st now key) else none
    | none => none
  else none

end SharedCache

/-- The record returned by `RateLimitManager.checkRateLimit`. -/
structure RLResult where
  allowed : Bool
  remaining : Int
  resetTime : Int
deriving DecidableEq, Repr

namespace RateLimitManager

/-- `RateLimitManager.checkRateLimit` (`shared-security.ts` 182–195);
`nowMs` is `Date.now()`. -/
def checkRateLimit (st : List (String × RedisEntry)) (cacheUp : Bool)
    (window maxR : Nat) (userId endpoint : String) (now nowMs : Int) :
    RLResult × List (String × RedisEntry) :=
  let r := SharedCache.checkRateLimit st cacheUp now userId endpoint maxR window
  let info := SharedCache.getRateLimitInfo r.2 cacheUp now userId endpoint
  ({ allowed := r.1,
     remaining :=
       match info with
       | some i => max 0 ((maxR : Int) - (i.1 : Int))
       | none => (maxR : Int),
     resetTime :=
       match info with
       | some i => nowMs + i.2.2 * 1000
       | none => nowMs + (window : Int) * 1000 }, r.2)

end RateLimitManager

/-- Run a sequence of rate-limit checks at the given times, against the
same (identity, route) pair, threading the cache state; returns the
`allowed` verdicts. -/
def checkSeq (cacheUp : Bool) (window maxR : Nat) (u e : String) :
    List (String × RedisEntry) → List Int → List Bool × List (String × RedisEntry)
  | st, [] => ([], st)
  | st, t :: ts =>
    let r := RateLimitManager.checkRateLimit st cacheUp window maxR u e t 0
    let rest := checkSeq cacheUp window maxR u e r.2 ts
    (r.1.allowed :: rest.1, rest.2)

theorem rlm_step (st st2 : List (String × RedisEntry)) (now : Int) (u e : String)
    (m w : Nat) (b : Bool)
    (h : SharedCache.checkRateLimit st true now u e m w = (b, st2)) :
    (RateLimitManager.checkRateLimit st true w m u e now 0).1.allowed = b
    ∧ (RateLimitManager.checkRateLimit st true w m u e now 0).2 = st2 := by
  constructor <;> simp [RateLimitManager.checkRateLimit, h]

theorem cache_fresh (st : List (String × RedisEntry)) (now : Int) (u e : String)
    (limit window : Nat) (h : lookupA st (rlKey u e) = none) (hlim : 1 ≤ limit) :
    SharedCache.checkRateLimit st true now u e limit window
      = (true, setA st (rlKey u e) ⟨1, some (now + window)⟩) := by
  simp only [SharedCache.checkRateLimit, if_pos trivial, redisIncr, h, redisExpire,
    lookupA_setA_self, entryLive, setA_setA, if_pos rfl]
  simp [decide_eq_true hlim]

theorem cache_live (st : List (String × RedisEntry)) (now : Int) (u e : String)
    (limit window : Nat) (c : Nat) (xp : Int)
    (h : lookupA st (rlKey u e) = some ⟨c, some xp⟩) (hlive : now < xp) (hc : 1 ≤ c) :
    SharedCache.checkRateLimit st true now u e limit window
      = (decide (c + 1 ≤ limit), setA st (rlKey u e) ⟨c + 1, some xp⟩) := by
  simp only [SharedCache.checkRateLimit, if_pos trivial, redisIncr, h, entryLive]
  rw [if_pos (by simp [hlive])]
  have hne : ¬(c + 1 = 1) := by omega
  simp [hne]

theorem cache_dead (st : List (String × RedisEntry)) (now : Int) (u e : String)
    (limit window : Nat) (c : Nat) (xp : Int)
    (h : lookupA st (rlKey u e) = some ⟨c, some xp⟩) (hdead : xp ≤ now) (hlim : 1 ≤ limit) :
    SharedCache.checkRateLimit st true now u e limit window
      = (true, setA st (rlKey u e) ⟨1, some (now + window)⟩) := by
  simp only [SharedCache.checkRateLimit, if_pos trivial, redisIncr, h, entryLive]
  rw [if_neg (by simp; omega)]
  simp only [redisExpire, lookupA_setA_self, entryLive, setA_setA, if_pos rfl]
  simp [decide_eq_true hlim]

/-- C4.  Fixed-window limiting at `max_requests = 5`, `window = 60`s for
one (identity, route) pair: starting from a state with no counter for the
pair, the first five checks (all before the window closes at `t0 + 60`)
return `allowed = true`, the sixth in the same window returns
`allowed = false`, and a seventh check at or after `t0 + 60` (counter
expired) returns `allowed = true` again. -/
theorem rate_limit_window (u e : String) (st0 : List (String × RedisEntry))
    (t0 t1 t2 t3 t4 t5 t6 : Int)
    (h0 : lookupA st0 (rlKey u e) = none)
    (hw1 : t1 < t0 + 60) (hw2 : t2 < t0 + 60) (hw3 : t3 < t0 + 60)
    (hw4 : t4 < t0 + 60) (hw5 : t5 < t0 + 60) (h6 : t0 + 60 ≤ t6) :
    (checkSeq true 60 5 u e st0 [t0, t1, t2, t3, t4, t5, t6]).1
      = [true, true, true, true, true, false, true] := by
  have e0 := cache_fresh st0 t0 u e 5 60 h0 (by norm_num)
  norm_num at e0
  obtain ⟨a0, b0⟩ := rlm_step _ _ _ _ _ _ _ _ e0
  have e1 := cache_live (setA st0 (rlKey u e) ⟨1, some (t0 + 60)⟩) t1 u e 5 60 1 (t0 + 60)
    (lookupA_setA_self _ _ _) (by omega) (by omega)
  rw [setA_setA] at e1
  norm_num at e1
  obtain ⟨a1, b1⟩ := rlm_step _ _ _ _ _ _ _ _ e1
  have e2 := cache_live (setA st0 (rlKey u e) ⟨2, some (t0 + 60)⟩) t2 u e 5 60 2 (t0 + 60)
    (lookupA_setA_self _ _ _) (by omega) (by omega)
  rw [setA_setA] at e2
  norm_num at e2
  obtain ⟨a2, b2⟩ := rlm_step _ _ _ _ _ _ _ _ e2
  have e3 := cache_live (setA st0 (rlKey u e) ⟨3, some (t0 + 60)⟩) t3 u e 5 60 3 (t0 + 60)
    (lookupA_setA_self _ _ _) (by omega) (by omega)
  rw [setA_setA] at e3
  norm_num at e3
  obtain ⟨a3, b3⟩ := rlm_step _ _ _ _ _ _ _ _ e3
  have e4 := cache_live (setA st0 (rlKey u e) ⟨4, some (t0 + 60)⟩) t4 u e 5 60 4 (t0 + 60)
    (lookupA_setA_self _ _ _) (by omega) (by omega)
  rw [setA_setA] at e4
  norm_num at e4
  obtain ⟨a4, b4⟩ := rlm_step _ _ _ _ _ _ _ _ e4
  have e5 := cache_live (setA st0 (rlKey u e) ⟨5, some (t0 + 60)⟩) t5 u e 5 60 5 (t0 + 60)
    (lookupA_setA_self _ _ _) (by omega) (by omega)
  rw [setA_setA] at e5
  norm_num at e5
  obtain ⟨a5, b5⟩ := rlm_step _ _ _ _ _ _ _ _ e5
  have e6 := cache_dead (setA st0 (rlKey u e) ⟨6, some (t0 + 60)⟩) t6 u e 5 60 6 (t0 + 60)
    (lookupA_setA_self _ _ _) (by omega) (by norm_num)
  rw [setA_setA] at e6
  norm_num at e6
  obtain ⟨a6, b6⟩ := rlm_step _ _ _ _ _ _ _ _ e6
  simp only [checkSeq]
  rw [a0, b0, a1, b1, a2, b2, a3, b3, a4, b4, a5, b5, a6]

/-- C4 witness: a concrete seven-call trace from the empty cache. -/
theorem rate_limit_window_witness :
    (checkSeq true 60 5 "alice" "route" [] [0, 10, 20, 30, 40, 50, 60]).1
      = [true, true, true, true, true, false, true] :=
  rate_limit_window "alice" "route" [] 0 10 20 30 40 50 60 rfl
    (by norm_num) (by norm_num) (by norm_num) (by norm_num) (by norm_num) (by norm_num)

/-- C5.  Fail-open: when the cache's atomic increment fails (cache
unreachable), the rate-limit check allows the request and neither denies
nor surfaces an error — the cache-level check returns `true` with the
state untouched, and the manager-level result has `allowed = true`. -/
theorem rate_limit_fail_open (st : List (String × RedisEntry)) (now nowMs : Int)
    (u e : String) (limit window : Nat) :
    SharedCache.checkRateLimit st false now u e limit window = (true, st)
    ∧ (RateLimitManager.checkRateLimit st false window limit u e now nowMs).1.allowed
        = true := by
  exact ⟨rfl, rfl⟩

/-! ## `MetricsCollector` (`shared-monitoring.ts` 68–159).

`this.metrics` is a JavaScript `Map`, an insertion-ordered map modelled as
an association list (`Map.set` on an existing key keeps its position,
matching `setA`).  The comparator `a.localeCompare(b)` is modelled as
code-point order on strings. -/

structure Metric where
  name : String
  type : String
  value : Int
  labels : List (String × String)
  timestamp : Int
deriving DecidableEq, Repr

/-- `MetricsCollector.generateMetricKey`: labels sorted by key, rendered
`k="v"` and comma-joined; plain `name` when there are no labels. -/
def generateMetricKey (name : String) (labels : List (String × String)) : String :=
  let sorted := labels.mergeSort (fun a b => decide (a.1 ≤ b.1))
  let labelStr := String.intercalate "," (sorted.map (fun kv => kv.1 ++ "=\"" ++ kv.2 ++ "\""))
  if labelStr = "" then name else name ++ "\x7b" ++ labelStr ++ "\x7d"

structure MetricsState where
  metrics : List (String × Metric)
  enableMetrics : Bool
deriving DecidableEq, Repr

namespace MetricsCollector

/-- `MetricsCollector.increment`: accumulate into an existing counter
series (keeping its labels, refreshing its timestamp), otherwise start a
new one. -/
def increment (st : MetricsState) (name : String) (value : Int)
    (labels : List (String × String)) (now : Int) : MetricsState :=
  if st.enableMetrics = false then st
  else
    let key := generateMetricKey name labels
    match lookupA st.metrics key with
    | some existing =>
      if existing.type = "counter" then
        let updated : Metric := { existing with value := existing.value + value, timestamp := now }
        { st with metrics := setA st.metrics key updated }
      else
        { st with metrics := setA st.metrics key ⟨name, "counter", value, labels, now⟩ }
    | none => { st with metrics := setA st.metrics key ⟨name, "counter", value, labels, now⟩ }

end MetricsCollector

/-- Two label maps that are permutations of each other (with no repeated
key, as JavaScript object entries guarantee) canonicalize to the same
series key. -/
theorem metricKey_perm (name : String) (l1 l2 : List (String × String))
    (hp : l1.Perm l2) (hnd : (l1.map Prod.fst).Nodup) :
    generateMetricKey name l1 = generateMetricKey name l2 := by
  have htrans : ∀ a b c : String × String,
      (fun a b : String × String => decide (a.1 ≤ b.1)) a b →
      (fun a b : String × String => decide (a.1 ≤ b.1)) b c →
      (fun a b : String × String => decide (a.1 ≤ b.1)) a c := by
    intro a b c hab hbc
    simp only [decide_eq_true_eq] at hab hbc ⊢
    exact le_trans hab hbc
  have htotal : ∀ a b : String × String,
      (fun a b : String × String => decide (a.1 ≤ b.1)) a b
        || (fun a b : String × String => decide (a.1 ≤ b.1)) b a := by
    intro a b
    simp only [Bool.or_eq_true, decide_eq_true_eq]
    exact le_total a.1 b.1
  have hs1 := List.sorted_mergeSort htrans htotal l1
  have hs2 := List.sorted_mergeSort htrans htotal l2
  have hperm : (l1.mergeSort (fun a b => decide (a.1 ≤ b.1))).Perm
      (l2.mergeSort (fun a b => decide (a.1 ≤ b.1))) :=
    ((List.mergeSort_perm l1 _).trans hp).trans (List.mergeSort_perm l2 _).symm
  have hnd1 : ((l1.mergeSort (fun a b => decide (a.1 ≤ b.1))).map Prod.fst).Nodup := by
    refine (List.Perm.nodup_iff ?_).2 hnd
    exact (List.mergeSort_perm l1 _).map Prod.fst
  have hpw1 : (l1.mergeSort (fun a b => decide (a.1 ≤ b.1))).Pairwise
      (fun a b : String × String => a.1 ≠ b.1) := List.pairwise_map.1 hnd1
  have hnd2 : ((l2.mergeSort (fun a b => decide (a.1 ≤ b.1))).map Prod.fst).Nodup := by
    refine (List.Perm.nodup_iff ((List.mergeSort_perm l2 _).map Prod.fst)).2 ?_
    exact (List.Perm.nodup_iff (hp.map Prod.fst)).1 hnd
  have hpw2 : (l2.mergeSort (fun a b => decide (a.1 ≤ b.1))).Pairwise
      (fun a b : String × String => a.1 ≠ b.1) := List.pairwise_map.1 hnd2
  have hlt1 : (l1.mergeSort (fun a b => decide (a.1 ≤ b.1))).Pairwise
      (fun a b : String × String => a.1 < b.1) := by
    refine (hs1.and hpw1).imp ?_
    intro a b hab
    simp only [decide_eq_true_eq] at hab
    exact lt_of_le_of_ne hab.1 hab.2
  have hlt2 : (l2.mergeSort (fun a b => decide (a.1 ≤ b.1))).Pairwise
      (fun a b : String × String => a.1 < b.1) := by
    refine (hs2.and hpw2).imp ?_
    intro a b hab
    simp only [decide_eq_true_eq] at hab
    exact lt_of_le_of_ne hab.1 hab.2
  haveI : IsAntisymm (String × String) (fun a b : String × String => a.1 < b.1) :=
    ⟨fun a b h1 h2 => absurd h2 (lt_asymm h1)⟩
  have heq : l1.mergeSort (fun a b => decide (a.1 ≤ b.1))
      = l2.mergeSort (fun a b => decide (a.1 ≤ b.1)) :=
    List.eq_of_perm_of_sorted hperm hlt1 hlt2
  simp only [generateMetricKey, heq]

/-- C6.  Label-order commutativity: from a fresh collector,
`increment(name, 1, l1)` then `increment(name, 1, l2)` with `l2` the same
label set in another order produces exactly one series with value 2. -/
theorem increment_label_commute (name : String) (l1 l2 : List (String × String))
    (now1 now2 : Int) (hp : l1.Perm l2) (hnd : (l1.map Prod.fst).Nodup) :
    (MetricsCollector.increment
        (MetricsCollector.increment ⟨[], true⟩ name 1 l1 now1) name 1 l2 now2).metrics
      = [(generateMetricKey name l1, ⟨name, "counter", 2, l1, now2⟩)] := by
  have hkey : generateMetricKey name l2 = generateMetricKey name l1 :=
    (metricKey_perm name l1 l2 hp hnd).symm
  simp [MetricsCollector.increment, lookupA, setA, hkey]

/-- C6 witness: the spec's example, `{a:"1",b:"2"}` then `{b:"2",a:"1"}`. -/
theorem increment_label_commute_witness :
    (MetricsCollector.increment
        (MetricsCollector.increment ⟨[], true⟩ "x" 1 [("a", "1"), ("b", "2")] 5)
        "x" 1 [("b", "2"), ("a", "1")] 9).metrics
      = [(generateMetricKey "x" [("a", "1"), ("b", "2")],
          ⟨"x", "counter", 2, [("a", "1"), ("b", "2")], 9⟩)] :=
  increment_label_commute "x" [("a", "1"), ("b", "2")] [("b", "2"), ("a", "1")] 5 9
    (by decide) (by decide)

/-! ## `DistributedTracer` (`shared-monitoring.ts` 240–386).

`performance.now()` readings and `Math.random()` draws are inputs
(`now : Int`, `rand : ℚ` with the configured sampling rate also `ℚ`);
`crypto.randomUUID()` outputs are the `newTraceId` / `newSpanId` inputs.
The in-memory span table and the cache are insertion-ordered association
lists; `saveSpan`'s `cache.set(key, span, 3600)` is modelled as a plain
store (the 1h TTL and the `catch` around a failing store play no part in
the claims below). -/

structure TraceSpan where
  id : String
  parentId : Option String
  traceId : String
  name : String
  startTime : Int
  endTime : Option Int
  duration : Option Int
  tags : List (String × String)
  logs : List (Int × String)
deriving DecidableEq, Repr

structure TraceContext where
  traceId : String
  spanId : String
  parentId : Option String
  sampled : Bool
deriving DecidableEq, Repr

structure TracerConfig where
  enableTracing : Bool
  traceSamplingRate : ℚ
  maxTraceDuration : Int
deriving DecidableEq, Repr

structure TracerState where
  spans : List (String × TraceSpan)
  cache : List (String × TraceSpan)
deriving DecidableEq, Repr

/-- `Object.assign(span.tags, tags)`. -/
def assignTags (tags newTags : List (String × String)) : List (String × String) :=
  newTags.foldl (fun acc kv => setA acc kv.1 kv.2) tags

namespace DistributedTracer

/-- `DistributedTracer.startSpan`.  `sampled` is the Bernoulli draw
`Math.random() < this.config.traceSamplingRate`; the span record itself
stores no `sampled` field. -/
def startSpan (cfg : TracerConfig) (st : TracerState) (name : String)
    (parentContext : Option TraceContext) (newTraceId newSpanId : String)
    (now : Int) (rand : ℚ) : TraceContext × TracerState :=
  if cfg.enableTracing = false then (⟨"", "", none, false⟩, st)
  else
    let traceId :=
      match parentContext with
      | some pc => if pc.traceId = "" then newTraceId else pc.traceId
      | none => newTraceId
    let sampled := decide (rand < cfg.traceSamplingRate)
    let span : TraceSpan :=
      ⟨newSpanId, parentContext.map (fun pc => pc.spanId), traceId, name, now,
        none, none, [], []⟩
    (⟨traceId, newSpanId, parentContext.map (fun pc => pc.spanId), sampled⟩,
      { st with spans := setA st.spans newSpanId span })

/-- `DistributedTracer.saveSpan` (modulo TTL and error swallowing, see
section comment). -/
def saveSpan (st : TracerState) (span : TraceSpan) : TracerState :=
  { st with cache := setA st.cache ("trace:" ++ span.traceId ++ ":" ++ span.id) span }

/-- The mutation block of `endSpan`: set `endTime`, set
`duration = endTime - startTime`, merge the optional tags. -/
def endedSpan (span : TraceSpan) (tags : Option (List (String × String)))
    (now : Int) : TraceSpan :=
  { span with
    endTime := some now
    duration := some (now - span.startTime)
    tags := match tags with
      | some ts => assignTags span.tags ts
      | none => span.tags }

/-- `DistributedTracer.endSpan`: close the span, compute its duration,
merge tags, and persist it only when the duration is within
`maxTraceDuration`. -/
def endSpan (cfg : TracerConfig) (st : TracerState) (spanId : String)
    (tags : Option (List (String × String))) (now : Int) : TracerState :=
  if cfg.enableTracing = false then st
  else
    match lookupA st.spans spanId with
    | none => st
    | some span =>
      let span2 : TraceSpan := endedSpan span tags now
      let st2 : TracerState := { st with spans := setA st.spans spanId span2 }
      if now - span.startTime ≤ cfg.maxTraceDuration then saveSpan st2 span2 else st2

/-- `DistributedTracer.getTrace`: `keys('trace:{traceId}:*')` (prefix
match) then `mget`, dropping nulls. -/
def getTrace (st : TracerState) (traceId : String) : List TraceSpan :=
  let pattern := "trace:" ++ traceId ++ ":"
  let keys := (st.cache.map Prod.fst).filter (fun k => strStartsWith k pattern)
  let spans := keys.map (fun k => lookupA st.cache k)
  spans.filterMap id

end DistributedTracer

theorem lookupA_mem {α : Type} (l : List (String × α)) (k : String) (v : α)
    (h : lookupA l k = some v) : (k, v) ∈ l := by
  induction l with
  | nil => simp [lookupA] at h
  | cons p t ih =>
    obtain ⟨k2, w⟩ := p
    rw [lookupA] at h
    by_cases hk : k2 = k
    · subst hk
      rw [if_pos rfl] at h
      simp at h
      simp [h]
    · rw [if_neg hk] at h
      simp [ih h]

/-- C7.  Span duration cutoff: ending a span records
`duration = end_time - start_time`; when that duration exceeds
`maxTraceDuration`, nothing is written to the cache, and the span is
absent from `getTrace` of its trace. -/
theorem span_duration_cutoff (cfg : TracerConfig) (st : TracerState) (spanId : String)
    (tags : Option (List (String × String))) (now : Int) (span : TraceSpan)
    (he : cfg.enableTracing = true)
    (hs : lookupA st.spans spanId = some span)
    (hd : cfg.maxTraceDuration < now - span.startTime)
    (hc : ∀ kv ∈ st.cache, kv.2.id ≠ span.id) :
    lookupA (DistributedTracer.endSpan cfg st spanId tags now).spans spanId
        = some (DistributedTracer.endedSpan span tags now)
    ∧ (DistributedTracer.endedSpan span tags now).duration = some (now - span.startTime)
    ∧ (DistributedTracer.endSpan cfg st spanId tags now).cache = st.cache
    ∧ ∀ s2 ∈ DistributedTracer.getTrace (DistributedTracer.endSpan cfg st spanId tags now)
        span.traceId, s2.id ≠ span.id := by
  have hend : DistributedTracer.endSpan cfg st spanId tags now
      = { st with spans := setA st.spans spanId (DistributedTracer.endedSpan span tags now) } := by
    simp only [DistributedTracer.endSpan, he, hs]
    rw [if_neg (by simp)]
    rw [if_neg (by omega)]
  refine ⟨?_, rfl, ?_, ?_⟩
  · rw [hend]; exact lookupA_setA_self _ _ _
  · rw [hend]
  · intro s2 hs2
    rw [hend] at hs2
    simp only [DistributedTracer.getTrace, List.mem_filterMap, List.mem_map,
      List.mem_filter, id] at hs2
    obtain ⟨a, ⟨k, hk, rfl⟩, hlk⟩ := hs2
    exact hc (k, s2) (lookupA_mem _ _ _ hlk)

def spanSample : TraceSpan := ⟨"s1", none, "t1", "op", 0, none, none, [], []⟩

/-- C7 witness: a span opened at 0 and ended at 500 against a 100ms
cutoff is closed with duration 500 but not persisted. -/
theorem span_duration_cutoff_witness :
    lookupA (DistributedTracer.endSpan ⟨true, 0, 100⟩ ⟨[("s1", spanSample)], []⟩
        "s1" none 500).spans "s1"
      = some (DistributedTracer.endedSpan spanSample none 500)
    ∧ (DistributedTracer.endedSpan spanSample none 500).duration
        = some (500 - spanSample.startTime)
    ∧ (DistributedTracer.endSpan ⟨true, 0, 100⟩ ⟨[("s1", spanSample)], []⟩
        "s1" none 500).cache = ([] : List (String × TraceSpan))
    ∧ ∀ s2 ∈ DistributedTracer.getTrace
        (DistributedTracer.endSpan ⟨true, 0, 100⟩ ⟨[("s1", spanSample)], []⟩ "s1" none 500)
        spanSample.traceId, s2.id ≠ spanSample.id :=
  span_duration_cutoff ⟨true, 0, 100⟩ ⟨[("s1", spanSample)], []⟩ "s1" none 500 spanSample
    rfl (by decide) (by decide) (by simp)

/-- C8 (amended).  The `sampled` flag is a fresh Bernoulli draw at
`traceSamplingRate` recorded in the returned context, but it has no
effect on the tracer's state: the stored span is the same whatever the
draw, so persistence (decided later by the duration cutoff alone) is
independent of `sampled`. -/
theorem sampled_only_in_context (cfg : TracerConfig) (st : TracerState) (name : String)
    (pc : Option TraceContext) (tid sid : String) (now : Int) (r1 r2 : ℚ)
    (he : cfg.enableTracing = true) :
    (DistributedTracer.startSpan cfg st name pc tid sid now r1).1.sampled
        = decide (r1 < cfg.traceSamplingRate)
    ∧ (DistributedTracer.startSpan cfg st name pc tid sid now r1).2
        = (DistributedTracer.startSpan cfg st name pc tid sid now r2).2 := by
  constructor <;> simp [DistributedTracer.startSpan, he]

/-- C8 witness for the amended claim. -/
theorem sampled_only_in_context_witness :
    (DistributedTracer.startSpan ⟨true, 1/10, 300000⟩ ⟨[], []⟩ "op" none "t1" "s1" 0
        (1/2)).1.sampled = decide ((1/2 : ℚ) < (⟨true, 1/10, 300000⟩ :
          TracerConfig).traceSamplingRate)
    ∧ (DistributedTracer.startSpan ⟨true, 1/10, 300000⟩ ⟨[], []⟩ "op" none "t1" "s1" 0
        (1/2)).2
      = (DistributedTracer.startSpan ⟨true, 1/10, 300000⟩ ⟨[], []⟩ "op" none "t1" "s1" 0
        (1/20)).2 :=
  sampled_only_in_context ⟨true, 1/10, 300000⟩ ⟨[], []⟩ "op" none "t1" "s1" 0
    (1/2) (1/20) rfl

/-- C8 counterexample: with sampling rate 0 the context comes back with
`sampled = false`, yet the completed short span is persisted and returned
by `getTrace` — persistence ignores the sampling decision
(`endSpan` tests only the duration; the span record has no sampled
field). -/
theorem sampled_false_still_persisted :
    (DistributedTracer.startSpan ⟨true, 0, 300000⟩ ⟨[], []⟩ "op" none "t1" "s1" 0
        (1/2)).1.sampled = false
    ∧ (DistributedTracer.getTrace
        (DistributedTracer.endSpan ⟨true, 0, 300000⟩
          (DistributedTracer.startSpan ⟨true, 0, 300000⟩ ⟨[], []⟩ "op" none "t1" "s1" 0
            (1/2)).2
          "s1" none 5) "t1").map (fun s => s.id) = ["s1"] := by
  constructor
  · simp only [DistributedTracer.startSpan]
    norm_num
  · decide

/-! ## `HealthChecker` (`shared-monitoring.ts` 411–506).

Probe outcomes are inputs (`Except String Unit`: `.error msg` is a thrown
exception with message `msg`):
- the cache probe is `this.cache.ping()`.  Modelled from the spec: the
  `SharedCache` copy embedded in this repository has no `ping` method —
  §6 of the spec declares the consumed cache contract `ping() -> bool`, a
  connectivity probe that throws when the cache is unreachable.  Only its
  success/throw outcome matters here, which the model takes as input.
- the system probe is `process.memoryUsage()`/`process.cpuUsage()` (Node
  builtins); its snapshot payload is not modelled, only success/throw.
- `setOutcome` is the final `this.cache.set('health:current', result, 60)`,
  which is *outside* any try/catch in `performHealthCheck`, and
  `SharedCache.set` rethrows cache errors.
`pingTime` is the measured `performance.now()` difference, `nowIso` the
`new Date().toISOString()` stamp, `uptimeMs` the uptime computation. -/

structure CheckEntry where
  status : String
  responseTime : Option Int
  error : Option String
deriving DecidableEq, Repr

structure HealthCheckResult where
  status : String
  timestamp : String
  checks : List (String × CheckEntry)
  version : String
  uptime : Int
deriving DecidableEq, Repr

namespace HealthChecker

/-- `HealthChecker.performHealthCheck`. -/
def performHealthCheck (pingOutcome : Except String Unit) (pingTime : Int)
    (sysOutcome : Except String Unit) (setOutcome : Except String Unit)
    (nowIso : String) (uptimeMs : Int) : Except String HealthCheckResult :=
  let redisCheck : CheckEntry :=
    match pingOutcome with
    | .ok _ => ⟨"up", some pingTime, none⟩
    | .error msg => ⟨"down", none, some msg⟩
  let systemCheck : CheckEntry :=
    match sysOutcome with
    | .ok _ => ⟨"up", none, none⟩
    | .error msg => ⟨"degraded", none, some msg⟩
  let statuses := [redisCheck.status, systemCheck.status]
  let overallStatus :=
    if statuses.contains "down" then "unhealthy"
    else if statuses.contains "degraded" then "degraded"
    else "healthy"
  let result : HealthCheckResult :=
    ⟨overallStatus, nowIso, [("redis", redisCheck), ("system", systemCheck)],
      "11.2.0", uptimeMs⟩
  match setOutcome with
  | .error msg => .error msg
  | .ok _ => .ok result

end HealthChecker

/-- C9 counterexample.  (i) A throwing system-resource probe is recorded
as `degraded`, not `down` (and the overall status is `degraded`, not
`unhealthy`), contradicting "a probe that throws is recorded as down";
(ii) when the cache is unreachable, the final result-caching
`cache.set` — outside every try/catch, and rethrowing — makes the health
check throw to its caller instead of returning the `unhealthy` result. -/
theorem health_probe_throw_counterexample :
    HealthChecker.performHealthCheck (.ok ()) 1 (.error "boom") (.ok ()) "ts" 0
      = .ok ⟨"degraded", "ts",
          [("redis", ⟨"up", some 1, none⟩), ("system", ⟨"degraded", none, some "boom"⟩)],
          "11.2.0", 0⟩
    ∧ ("degraded" : String) ≠ "down"
    ∧ HealthChecker.performHealthCheck (.error "cache down") 0 (.ok ())
        (.error "cache down") "ts" 0 = .error "cache down" := by
  refine ⟨rfl, by decide, rfl⟩

/-- C9 (amended).  For every combination of probe outcomes: when the
final result-caching write succeeds, the check returns a result whose
overall status is `unhealthy` if the cache probe threw (recorded `down`
with the message), else `degraded` if the system probe threw (recorded
`degraded` with the message — not `down`), else `healthy`; when the final
write fails, its error propagates to the caller. -/
theorem health_aggregation (pingOutcome sysOutcome setOutcome : Except String Unit)
    (pingTime uptimeMs : Int) (nowIso : String) :
    (∀ msg, setOutcome = .error msg →
      HealthChecker.performHealthCheck pingOutcome pingTime sysOutcome setOutcome
        nowIso uptimeMs = .error msg)
    ∧ (setOutcome = .ok () →
      HealthChecker.performHealthCheck pingOutcome pingTime sysOutcome setOutcome
          nowIso uptimeMs
        = .ok ⟨(match pingOutcome, sysOutcome with
                | .error _, _ => "unhealthy"
                | .ok _, .error _ => "degraded"
                | .ok _, .ok _ => "healthy"),
            nowIso,
            [("redis", match pingOutcome with
                | .ok _ => ⟨"up", some pingTime, none⟩
                | .error m => ⟨"down", none, some m⟩),
             ("system", match sysOutcome with
                | .ok _ => ⟨"up", none, none⟩
                | .error m => ⟨"degraded", none, some m⟩)],
            "11.2.0", uptimeMs⟩) := by
  constructor
  · intro msg hset
    subst hset
    rfl
  · intro hset
    subst hset
    rcases pingOutcome with pm | pu <;> rcases sysOutcome with sm | su <;>
      simp [HealthChecker.performHealthCheck]

/-- C9 witness: all probes succeed and the write succeeds — the check
returns `healthy` with both checks `up`. -/
theorem health_aggregation_witness :
    HealthChecker.performHealthCheck (.ok ()) 1 (.ok ()) (.ok ()) "ts" 7
      = .ok ⟨"healthy", "ts",
          [("redis", ⟨"up", some 1, none⟩), ("system", ⟨"up", none, none⟩)],
          "11.2.0", 7⟩ :=
  (health_aggregation (.ok ()) (.ok ()) (.ok ()) 1 7 "ts").2 rfl

end Kanizsa
